import Mathlib

/-!
Verification of the pronto ontology library core: comment metadata
extraction, accession normalization, the Entity facade's validated
setters, and the OWL-XML classification / merge pipeline.  Python code
is shallowly embedded: Python strings are `List Char` (obtained from
Lean string literals through `String.data`), Python dicts are
insertion-ordered association lists, Python exceptions are an error
sum, and fallible code returns `Except`.  All string primitives are
defined structurally (with a length fuel where the scan skips several
characters at once) so that every definition evaluates inside the
kernel.
-/

namespace Pronto

/-- A Python string. -/
abbrev PyStr := List Char

/-- Python exception kinds raised by the embedded code. -/
inductive PyErr
  | typeError (msg : String)
  | valueError (msg : String)
  | nameError (msg : String)
  | attributeError (msg : String)
  | runtimeError (msg : String)
deriving DecidableEq, Repr

/-- Whether `pat` occurs as a contiguous substring of `s`
(Python `pat in s`). -/
def occursIn (pat : PyStr) : PyStr → Bool
  | [] => pat.isEmpty
  | c :: rest => pat.isPrefixOf (c :: rest) || occursIn pat rest

/-- Python `s.strip()`: drop whitespace from both ends. -/
def pyTrim (s : PyStr) : PyStr :=
  ((s.dropWhile Char.isWhitespace).reverse.dropWhile Char.isWhitespace).reverse

/-- Worker for `pySplit`; the fuel starts at the length of the string,
which bounds the number of scan steps, so the zero-fuel branch is never
reached with a non-empty remainder. -/
def pySplitFuel (sep : PyStr) : Nat → PyStr → PyStr → List PyStr
  | 0, cur, rest => [cur.reverse ++ rest]
  | _ + 1, cur, [] => [cur.reverse]
  | fuel + 1, cur, c :: rest =>
    if sep ≠ [] ∧ sep.isPrefixOf (c :: rest) then
      cur.reverse :: pySplitFuel sep fuel [] ((c :: rest).drop sep.length)
    else
      pySplitFuel sep fuel (c :: cur) rest

/-- Python `s.split(sep)` for an explicit separator: split at every
leftmost non-overlapping occurrence. -/
def pySplit (sep s : PyStr) : List PyStr :=
  pySplitFuel sep s.length [] s

/-- Python `sep.join(parts)`. -/
def pyJoin (sep : PyStr) : List PyStr → PyStr
  | [] => []
  | [x] => x
  | x :: y :: rest => x ++ sep ++ pyJoin sep (y :: rest)

/-- Worker for `pyReplace` with the same length fuel as `pySplitFuel`. -/
def pyReplaceFuel (pat rep : PyStr) : Nat → PyStr → PyStr
  | 0, s => s
  | _ + 1, [] => []
  | fuel + 1, c :: rest =>
    if pat ≠ [] ∧ pat.isPrefixOf (c :: rest) then
      rep ++ pyReplaceFuel pat rep fuel ((c :: rest).drop pat.length)
    else
      c :: pyReplaceFuel pat rep fuel rest

/-- Python `s.replace(pat, rep)` for a non-empty pattern: replace every
leftmost non-overlapping occurrence, resuming the scan after each
replacement.  (The empty pattern is routed around this function.) -/
def pyReplaceNE (pat rep s : PyStr) : PyStr :=
  pyReplaceFuel pat rep s.length s

/-- Python `s.replace(pat, rep)`, empty pattern included
(`''.replace` interleaves `rep` between the characters). -/
def pyReplace (pat rep s : PyStr) : PyStr :=
  if pat = [] then rep ++ s.flatMap (fun ch => ch :: rep)
  else pyReplaceNE pat rep s

/-- A value stored under a key of a parsed-comment dictionary: the code
stores either a plain string (`desc`, `functional form`) or a list of
strings (every other key of `other`). -/
inductive DescVal
  | str (s : PyStr)
  | strlist (l : List PyStr)
deriving DecidableEq, Repr

/-- The `other` sub-dictionary: insertion-ordered map from section name
to its value. -/
abbrev OtherDict := List (PyStr × DescVal)

def dictGet (d : OtherDict) (k : PyStr) : Option DescVal :=
  (d.find? (fun p => p.1 == k)).map Prod.snd

/-- `d[k].append(v)` / `d[k] = [v]` with Python semantics: append when
the key holds a list, create the key at the end when absent, and fail
(AttributeError on `str.append`) when the key holds a plain string. -/
def dictAppendVal (d : OtherDict) (k v : PyStr) : Option OtherDict :=
  match dictGet d k with
  | some (.strlist l) =>
      some (d.map (fun p => if p.1 == k then (p.1, DescVal.strlist (l ++ [v])) else p))
  | some (.str _) => none
  | none => some (d ++ [(k, DescVal.strlist [v])])

/-- `d[k] = v` with Python dict semantics: overwrite in place when the
key exists, else insert at the end. -/
def dictSet (d : OtherDict) (k : PyStr) (v : DescVal) : OtherDict :=
  if (dictGet d k).isSome then d.map (fun p => if p.1 == k then (p.1, v) else p)
  else d ++ [(k, v)]

/-- `del d[k]` (the callers only delete keys they just looked up). -/
def dictDelete (d : OtherDict) (k : PyStr) : OtherDict :=
  d.filter (fun p => p.1 != k)

/-- Result dictionary of comment parsing: the optional `desc` and
`other` keys. -/
structure ParsedComment where
  desc : Option DescVal
  other : Option OtherDict
deriving DecidableEq, Repr

instance {ε α : Type} [DecidableEq ε] [DecidableEq α] : DecidableEq (Except ε α) := fun a b =>
  match a, b with
  | .ok x, .ok y =>
      if h : x = y then .isTrue (by rw [h]) else .isFalse (by intro hh; cases hh; exact h rfl)
  | .error x, .error y =>
      if h : x = y then .isTrue (by rw [h]) else .isFalse (by intro hh; cases hh; exact h rfl)
  | .ok _, .error _ => .isFalse (by intro hh; cases hh)
  | .error _, .ok _ => .isFalse (by intro hh; cases hh)

namespace ProntoUtils

/-- Main scanning loop of `pronto.utils.parse_comment`: walks the
remaining comment lines (the current suffix is `commentlines[index:]`),
accumulating the parsed dictionary. -/
def parseCommentLoop : List PyStr → ParsedComment → Except PyErr ParsedComment
  | [], parsed => .ok parsed
  | line0 :: rest, parsed =>
    let line := pyTrim line0
    if "Functional form:".data.isPrefixOf line then
      let joined := pyJoin "\n".data (line0 :: rest)
      let other' :=
        match parsed.other with
        | some d => dictSet d "functional form".data (DescVal.str joined)
        | none => [("functional form".data, DescVal.str joined)]
      .ok { parsed with other := some other' }
    else if "def:".data.isPrefixOf line then
      let v := pyTrim ((pySplit "def:".data line).getLastD [])
      parseCommentLoop rest { parsed with desc := some (DescVal.str v) }
    else if occursIn ": ".data line then
      let parts := pySplit ": ".data line
      let ref := pyTrim (parts.headD [])
      let value := pyTrim (pyJoin ": ".data parts.tail)
      match parsed.other with
      | some d =>
          match dictAppendVal d ref value with
          | some d' => parseCommentLoop rest { parsed with other := some d' }
          | none => .error (.attributeError "str object has no attribute append")
      | none => parseCommentLoop rest { parsed with other := some [(ref, DescVal.strlist [value])] }
    else
      match parsed.desc with
      | some _ => parseCommentLoop rest parsed
      | none => .ok { parsed with desc := some (DescVal.str (pyJoin "\n".data (line0 :: rest))) }

/-- Post-pass of `parse_comment`: when `desc` is still unset and
`other` exists, populate it from `tempdef` then `altdef`, deleting the
used key. -/
def parseCommentPost (parsed : ParsedComment) : ParsedComment :=
  match parsed.desc, parsed.other with
  | none, some d =>
    let p1 :=
      match dictGet d "tempdef".data with
      | some v => { parsed with desc := some v, other := some (dictDelete d "tempdef".data) }
      | none => parsed
    match p1.other with
    | some d1 =>
      (match dictGet d1 "altdef".data with
       | some v => { p1 with desc := some v, other := some (dictDelete d1 "altdef".data) }
       | none => p1)
    | none => p1
  | _, _ => parsed

/-- `pronto.utils.parse_comment`: extract structured metadata from an
`rdfs:comment`.  `none` models the Python `None` argument. -/
def parse_comment : Option PyStr → Except PyErr ParsedComment
  | none => .ok { desc := none, other := none }
  | some comment =>
    let commentlines := pySplit "\n".data comment
    (parseCommentLoop commentlines { desc := none, other := none }).map parseCommentPost

end ProntoUtils

namespace OwlXML

/-- Main scanning loop of `_OwlXMLClassifier.parse_comment` (the
static-method copy of the utility parser inside the OWL classifier). -/
def parseCommentLoop : List PyStr → ParsedComment → Except PyErr ParsedComment
  | [], parsed => .ok parsed
  | line0 :: rest, parsed =>
    let line := pyTrim line0
    if "Functional form:".data.isPrefixOf line then
      let joined := pyJoin "\n".data (line0 :: rest)
      let other' :=
        match parsed.other with
        | some d => dictSet d "functional form".data (DescVal.str joined)
        | none => [("functional form".data, DescVal.str joined)]
      .ok { parsed with other := some other' }
    else if "def:".data.isPrefixOf line then
      let v := pyTrim ((pySplit "def:".data line).getLastD [])
      parseCommentLoop rest { parsed with desc := some (DescVal.str v) }
    else if occursIn ": ".data line then
      let parts := pySplit ": ".data line
      let ref := pyTrim (parts.headD [])
      let value := pyTrim (pyJoin ": ".data parts.tail)
      match parsed.other with
      | some d =>
          match dictAppendVal d ref value with
          | some d' => parseCommentLoop rest { parsed with other := some d' }
          | none => .error (.attributeError "str object has no attribute append")
      | none => parseCommentLoop rest { parsed with other := some [(ref, DescVal.strlist [value])] }
    else
      match parsed.desc with
      | some _ => parseCommentLoop rest parsed
      | none => .ok { parsed with desc := some (DescVal.str (pyJoin "\n".data (line0 :: rest))) }

/-- Post-pass of the classifier's `parse_comment`. -/
def parseCommentPost (parsed : ParsedComment) : ParsedComment :=
  match parsed.desc, parsed.other with
  | none, some d =>
    let p1 :=
      match dictGet d "tempdef".data with
      | some v => { parsed with desc := some v, other := some (dictDelete d "tempdef".data) }
      | none => parsed
    match p1.other with
    | some d1 =>
      (match dictGet d1 "altdef".data with
       | some v => { p1 with desc := some v, other := some (dictDelete d1 "altdef".data) }
       | none => p1)
    | none => p1
  | _, _ => parsed

/-- `_OwlXMLClassifier.parse_comment`. -/
def parse_comment : Option PyStr → Except PyErr ParsedComment
  | none => .ok { desc := none, other := none }
  | some comment =>
    let commentlines := pySplit "\n".data comment
    (parseCommentLoop commentlines { desc := none, other := none }).map parseCommentPost

end OwlXML

/-! ### Accession normalization (`pronto.utils.format_accession`) -/

/-- The namespace-stripping loop of `format_accession`:
`for v in nsmap.values(): accession = accession.replace(v, '')`,
`nsvals` being the dict's values in insertion order. -/
def stripNamespaces (nsvals : List PyStr) (accession : PyStr) : PyStr :=
  nsvals.foldl (fun a v => pyReplace v [] a) accession

/-- `pronto.utils.format_accession`: strip every namespace value, then
unless the result starts with `'_'` replace underscores by colons.
`nsvals = []` models the `nsmap=None` default. -/
def format_accession (accession : PyStr) (nsvals : List PyStr) : PyStr :=
  let s := stripNamespaces nsvals accession
  if s.head? = some '_' then s else pyReplace ['_'] [':'] s

/-- `format_accession` at `String` type, as used by the OWL classifier. -/
def format_accessionS (accession : String) (nsvals : List String) : String :=
  ⟨format_accession accession.data (nsvals.map String.data)⟩

/-- With enough fuel, replacing a single-character pattern by a single
character is a character map. -/
lemma pyReplaceFuel_singleton (a b : Char) (fuel : Nat) (s : PyStr)
    (hfuel : s.length ≤ fuel) :
    pyReplaceFuel [a] [b] fuel s = s.map (fun c => if c = a then b else c) := by
  induction fuel generalizing s with
  | zero =>
    cases s with
    | nil => rfl
    | cons c rest => simp at hfuel
  | succ fuel ih =>
    cases s with
    | nil => rfl
    | cons c rest =>
      rw [pyReplaceFuel]
      by_cases hc : c = a
      · rw [if_pos ⟨by simp, by simp [List.isPrefixOf, hc]⟩]
        simp only [List.length_singleton, List.drop_succ_cons, List.drop_zero]
        rw [ih rest (by simpa using hfuel)]
        simp [hc]
      · rw [if_neg (by
          rintro ⟨-, hpre⟩
          simp only [List.isPrefixOf, Bool.and_eq_true, beq_iff_eq] at hpre
          exact hc hpre.1.symm)]
        rw [ih rest (by simpa using hfuel)]
        simp [hc]

/-- Replacing a single-character pattern by a single character is a
character map. -/
lemma pyReplaceNE_singleton (a b : Char) (s : PyStr) :
    pyReplaceNE [a] [b] s = s.map (fun c => if c = a then b else c) :=
  pyReplaceFuel_singleton a b s.length s le_rfl

/-- With enough fuel, a pattern that does not occur leaves the string
unchanged. -/
lemma pyReplaceFuel_of_not_occurs (pat rep : PyStr) (fuel : Nat) (s : PyStr)
    (hfuel : s.length ≤ fuel) (h : occursIn pat s = false) :
    pyReplaceFuel pat rep fuel s = s := by
  induction fuel generalizing s with
  | zero =>
    cases s with
    | nil => rfl
    | cons c rest => simp at hfuel
  | succ fuel ih =>
    cases s with
    | nil => rfl
    | cons c rest =>
      rw [occursIn, Bool.or_eq_false_iff] at h
      rw [pyReplaceFuel, if_neg (by
        rintro ⟨-, hpre⟩
        rw [h.1] at hpre
        exact Bool.noConfusion hpre)]
      rw [ih rest (by simpa using hfuel) h.2]

/-- A pattern that does not occur leaves the string unchanged. -/
lemma pyReplace_of_not_occurs (pat rep s : PyStr)
    (h : occursIn pat s = false) : pyReplace pat rep s = s := by
  have hpat : pat ≠ [] := by
    intro he
    rw [he] at h
    cases s with
    | nil => rw [occursIn] at h; simp at h
    | cons c rest => rw [occursIn] at h; simp [List.isPrefixOf] at h
  rw [pyReplace, if_neg hpat]
  exact pyReplaceFuel_of_not_occurs pat rep s.length s le_rfl h

/-- Stripping namespaces none of which occur is the identity. -/
lemma stripNamespaces_noop (nsvals : List PyStr) (a : PyStr)
    (h : ∀ v ∈ nsvals, occursIn v a = false) : stripNamespaces nsvals a = a := by
  induction nsvals with
  | nil => rfl
  | cons v vs ih =>
    show List.foldl _ (pyReplace v [] a) vs = a
    rw [pyReplace_of_not_occurs v [] a (h v (by simp))]
    exact ih (fun w hw => h w (by simp [hw]))

/-- The underscore never survives the character substitution. -/
lemma underscore_not_mem_map (s : PyStr) :
    '_' ∉ s.map (fun c => if c = '_' then ':' else c) := by
  intro hmem
  rcases List.mem_map.mp hmem with ⟨c, _, hc⟩
  by_cases h : c = '_'
  · rw [if_pos h] at hc
    exact absurd hc (by decide)
  · rw [if_neg h] at hc
    exact h hc

/-- `occursIn` for a single character is list membership. -/
lemma occursIn_singleton (a : Char) (s : PyStr) :
    occursIn [a] s = false ↔ a ∉ s := by
  induction s with
  | nil => simp [occursIn]
  | cons c rest ih =>
    rw [occursIn, Bool.or_eq_false_iff]
    simp only [List.isPrefixOf, Bool.and_true, List.mem_cons, not_or,
      beq_eq_false_iff_ne, ne_eq]
    constructor
    · rintro ⟨h1, h2⟩
      exact ⟨h1, ih.mp h2⟩
    · rintro ⟨h1, h2⟩
      exact ⟨h1, ih.mpr h2⟩

/-- Replacing a leading copy of the pattern that does not reoccur. -/
lemma pyReplaceNE_append_self (v rep rest : PyStr) (hne : v ≠ [])
    (hocc : occursIn v rest = false) :
    pyReplaceNE v rep (v ++ rest) = rep ++ rest := by
  cases v with
  | nil => exact absurd rfl hne
  | cons a as =>
    rw [pyReplaceNE, List.cons_append]
    simp only [List.length_cons]
    rw [pyReplaceFuel,
      if_pos ⟨hne, by rw [← List.cons_append]; exact List.isPrefixOf_iff_prefix.mpr (List.prefix_append _ _)⟩]
    simp only [List.length_cons, List.drop_succ_cons, List.drop_left]
    rw [pyReplaceFuel_of_not_occurs (a :: as) rep _ rest (by simp) hocc]

/-! ### Theorems for the comment extractor claims -/

/-- The two scanning loops coincide on every input. -/
lemma parseCommentLoop_eq (ls : List PyStr) (p : ParsedComment) :
    ProntoUtils.parseCommentLoop ls p = OwlXML.parseCommentLoop ls p := by
  induction ls generalizing p with
  | nil => rfl
  | cons line0 rest ih =>
    rw [ProntoUtils.parseCommentLoop, OwlXML.parseCommentLoop]
    simp only
    split
    · rfl
    · split
      · exact ih _
      · split
        · split
          · split
            · exact ih _
            · rfl
          · exact ih _
        · split
          · exact ih _
          · rfl

/-- The two post-passes coincide on every input. -/
lemma parseCommentPost_eq (p : ParsedComment) :
    ProntoUtils.parseCommentPost p = OwlXML.parseCommentPost p := by
  cases p with
  | mk d o => cases d <;> cases o <;> rfl

/-- C9: the comment parser in `pronto.utils` and the static-method copy
inside `_OwlXMLClassifier` return equal results on every input,
including the `None` argument. -/
theorem parse_comment_implementations_equivalent (c : Option PyStr) :
    ProntoUtils.parse_comment c = OwlXML.parse_comment c := by
  cases c with
  | none => rfl
  | some s =>
    rw [ProntoUtils.parse_comment, OwlXML.parse_comment]
    simp only [parseCommentLoop_eq]
    cases OwlXML.parseCommentLoop (pySplit "\n".data s) { desc := none, other := none } with
    | error e => rfl
    | ok p => simp [Except.map, parseCommentPost_eq]

/-- C5 counterexample: for the comment `"altdef: bar"` (no `def:` line),
the resulting `desc` is the one-element list `["bar"]`, not the plain
string `"bar"` the claim states. -/
theorem parse_comment_altdef_list_counterexample :
    (ProntoUtils.parse_comment (some "altdef: bar".data)).map ParsedComment.desc =
      .ok (some (DescVal.strlist ["bar".data])) ∧
    DescVal.strlist ["bar".data] ≠ DescVal.str "bar".data := by
  constructor
  · rfl
  · decide

/-- C5 (amended): a `def:` line wins and is never overridden by a later
`altdef:` entry; with only an `altdef:` entry, `desc` becomes the stored
one-element list `["bar"]` (not the bare string) and `other` no longer
contains `"altdef"`; when both `tempdef` and `altdef` are present,
`altdef` determines the final value. -/
theorem parse_comment_def_and_altdef :
    ProntoUtils.parse_comment (some "def: foo\naltdef: bar".data) =
      .ok { desc := some (DescVal.str "foo".data),
            other := some [("altdef".data, DescVal.strlist ["bar".data])] } ∧
    ProntoUtils.parse_comment (some "altdef: bar".data) =
      .ok { desc := some (DescVal.strlist ["bar".data]), other := some [] } ∧
    ProntoUtils.parse_comment (some "tempdef: baz\naltdef: bar".data) =
      .ok { desc := some (DescVal.strlist ["bar".data]), other := some [] } :=
  ⟨rfl, rfl, rfl⟩

/-! ### Theorems for the accession normalization claims -/

/-- C3 counterexample: `format_accession` replaces every underscore,
not just the first one: on `"a_b_c"` (no namespace map) it returns
`"a:b:c"`, while the claim predicts `"a:b_c"`. -/
theorem format_accession_counterexample :
    format_accession "a_b_c".data [] = "a:b:c".data ∧
    format_accession "a_b_c".data [] ≠ "a:b_c".data := by
  constructor
  · rfl
  · decide

/-- C3 (amended): `format_accession` is total; with no namespace map an
accession starting with `'_'` passes through unchanged and otherwise
every `'_'` (not only the first) is replaced by `':'`; a bound
namespace value occurring as a leading URI is stripped in favor of the
short form, and the result then contains no underscore at all. -/
theorem format_accession_spec (acc v rest : PyStr) (hne : v ≠ [])
    (hocc : occursIn v rest = false) (hhead : rest.head? ≠ some '_') :
    format_accession acc [] =
      (if acc.head? = some '_' then acc
       else acc.map (fun c => if c = '_' then ':' else c)) ∧
    format_accession (v ++ rest) [v] =
      rest.map (fun c => if c = '_' then ':' else c) ∧
    '_' ∉ format_accession (v ++ rest) [v] := by
  have hstrip : stripNamespaces [v] (v ++ rest) = rest := by
    show pyReplace v [] (v ++ rest) = rest
    rw [pyReplace, if_neg hne, pyReplaceNE_append_self v [] rest hne hocc, List.nil_append]
  refine ⟨?_, ?_, ?_⟩
  · rw [format_accession]
    show (if acc.head? = some '_' then acc else pyReplace ['_'] [':'] acc) = _
    by_cases h : acc.head? = some '_'
    · rw [if_pos h, if_pos h]
    · rw [if_neg h, if_neg h, pyReplace, if_neg (by decide), pyReplaceNE_singleton]
  · rw [format_accession]
    show (if (stripNamespaces [v] (v ++ rest)).head? = some '_' then _
          else pyReplace ['_'] [':'] (stripNamespaces [v] (v ++ rest))) = _
    rw [hstrip, if_neg hhead, pyReplace, if_neg (by decide), pyReplaceNE_singleton]
  · rw [format_accession]
    show '_' ∉ (if (stripNamespaces [v] (v ++ rest)).head? = some '_' then _
          else pyReplace ['_'] [':'] (stripNamespaces [v] (v ++ rest)))
    rw [hstrip, if_neg hhead, pyReplace, if_neg (by decide), pyReplaceNE_singleton]
    exact underscore_not_mem_map rest

/-- Witness for the amended C3 theorem at a concrete legacy accession
with a concrete namespace URI. -/
theorem format_accession_spec_witness :
    "http://x/".data ≠ ([] : PyStr) ∧
    occursIn "http://x/".data "GO_1".data = false ∧
    ("GO_1".data : PyStr).head? ≠ some '_' ∧
    format_accession ("http://x/".data ++ "GO_1".data) ["http://x/".data] = "GO:1".data := by
  refine ⟨by decide, by decide, by decide, ?_⟩
  have h := (format_accession_spec "a".data "http://x/".data "GO_1".data
    (by decide) (by decide) (by decide)).2.1
  rw [h]
  rfl

/-- C4 counterexample: normalization is not idempotent for every
namespace map: with the map value `"O:1"` and the legal legacy
accession `"GO_12"`, one application yields `"GO:12"`, but a second
application strips the now-present substring `"O:1"` and yields
`"G2"`. -/
theorem format_accession_not_idempotent :
    format_accession (format_accession "GO_12".data ["O:1".data]) ["O:1".data] ≠
      format_accession "GO_12".data ["O:1".data] := by
  intro h
  have h1 : format_accession "GO_12".data ["O:1".data] = "GO:12".data := rfl
  rw [h1] at h
  have h2 : format_accession "GO:12".data ["O:1".data] = "G2".data := rfl
  rw [h2] at h
  exact absurd h (by decide)

/-- C4 (amended): `format_accession` is idempotent whenever no
namespace value occurs in the result of the first application — in
particular for every accession when the namespace map is empty
(`nsmap=None`). -/
theorem format_accession_idempotent (acc : PyStr) (nsvals : List PyStr)
    (h : ∀ v ∈ nsvals, occursIn v (format_accession acc nsvals) = false) :
    format_accession (format_accession acc nsvals) nsvals =
      format_accession acc nsvals := by
  have hstrip : stripNamespaces nsvals (format_accession acc nsvals) =
      format_accession acc nsvals := stripNamespaces_noop nsvals _ h
  rw [format_accession]
  show (if (stripNamespaces nsvals (format_accession acc nsvals)).head? = some '_' then _
        else pyReplace ['_'] [':'] (stripNamespaces nsvals (format_accession acc nsvals))) = _
  rw [hstrip]
  by_cases h0 : (stripNamespaces nsvals acc).head? = some '_'
  · have hr : format_accession acc nsvals = stripNamespaces nsvals acc := by
      rw [format_accession]
      show (if (stripNamespaces nsvals acc).head? = some '_' then _ else _) = _
      rw [if_pos h0]
    rw [hr, if_pos h0]
  · have hr : format_accession acc nsvals =
        (stripNamespaces nsvals acc).map (fun c => if c = '_' then ':' else c) := by
      rw [format_accession]
      show (if (stripNamespaces nsvals acc).head? = some '_' then _
            else pyReplace ['_'] [':'] (stripNamespaces nsvals acc)) = _
      rw [if_neg h0, pyReplace, if_neg (by decide), pyReplaceNE_singleton]
    have hnomem : '_' ∉ format_accession acc nsvals := by
      rw [hr]; exact underscore_not_mem_map _
    have hh : (format_accession acc nsvals).head? ≠ some '_' := by
      intro hc
      cases hfa : format_accession acc nsvals with
      | nil => rw [hfa] at hc; exact Option.noConfusion hc
      | cons x xs =>
        rw [hfa] at hc
        have hx : x = '_' := by simpa using hc
        rw [hfa, hx] at hnomem
        exact hnomem (List.mem_cons_self _ _)
    rw [if_neg hh, pyReplace, if_neg (by decide), pyReplaceNE_singleton,
      hr, List.map_map]
    apply List.map_congr_left
    intro c _
    by_cases hc : c = '_' <;> simp [hc]

/-- Witness for the amended C4 theorem: idempotence at `"GO_12"` with
the empty namespace map. -/
theorem format_accession_idempotent_witness :
    (∀ v ∈ ([] : List PyStr),
        occursIn v (format_accession "GO_12".data []) = false) ∧
    format_accession (format_accession "GO_12".data []) [] =
      format_accession "GO_12".data [] :=
  ⟨fun v hv => absurd hv (List.not_mem_nil v),
   format_accession_idempotent "GO_12".data []
     (fun v hv => absurd hv (List.not_mem_nil v))⟩

/-! ### The Entity facade (`pronto/entity.py`) -/

/-- A Python value that can be an element of a set assigned to one of
the Entity set-valued fields: the kinds the `__debug__` isinstance
checks distinguish.  Non-`str` scalar objects are represented by
`intVal`. -/
inductive PyVal
  | str (s : PyStr)
  | synonymObj (s : PyStr)
  | xrefObj (s : PyStr)
  | intVal (n : Int)
deriving DecidableEq, Repr

def PyVal.isStr : PyVal → Bool
  | .str _ => true
  | _ => false

def PyVal.isSynonym : PyVal → Bool
  | .synonymObj _ => true
  | _ => false

def PyVal.isXref : PyVal → Bool
  | .xrefObj _ => true
  | _ => false

/-- The owned record behind an `Entity` view.  The source declares
`class EntityData(): pass` and the setters assign its attributes; the
fields the claims touch are modelled explicitly.  Python sets are
modelled as lists in iteration order. -/
structure EntityData where
  id : PyStr
  alternate_ids : List PyVal
  subsets : List PyStr
  synonyms : List PyVal
  xrefs : List PyVal
deriving DecidableEq, Repr

/-- Modelled from the spec: `SubsetDef` (the ontology metadata classes
are not under src/) — an ontology-level declaration naming a valid
subset id (§3 and glossary). -/
structure SubsetDef where
  id : PyStr
deriving DecidableEq, Repr

/-- Modelled from the spec: the ontology metadata consulted by the
subsets setter, exposing `subsetdefs`. -/
structure Metadata where
  subsetdefs : List SubsetDef
deriving DecidableEq, Repr

/-- Modelled from the spec: the owning ontology as dereferenced by the
Entity facade; only `metadata` is consulted by the embedded setters. -/
structure Ontology where
  metadata : Metadata
deriving DecidableEq, Repr

/-- `Entity.alternate_ids` setter, input already a `set`/`frozenset`.
The `__debug__` check in the source iterates
`(x for x in ids if isinstance(x, str))` and raises on whatever it
yields, so the TypeError fires exactly when some element IS a `str`;
afterwards `set(ids)` is stored unconditionally. -/
def alternate_ids_setter (data : EntityData) (ids : List PyVal) :
    Except PyErr EntityData :=
  match ids.find? PyVal.isStr with
  | some _ => .error (.typeError "alternate_ids must be a set of str, not str")
  | none => .ok { data with alternate_ids := ids }

/-- `Entity.alternate_ids` getter (`frozenset(self._data().alternate_ids)`). -/
def alternate_ids_getter (data : EntityData) : List PyVal :=
  data.alternate_ids

/-- `Entity.synonyms` setter: raises for any element that is not a
`Synonym`, then stores the set. -/
def synonyms_setter (data : EntityData) (syns : List PyVal) :
    Except PyErr EntityData :=
  match syns.find? (fun x => ! x.isSynonym) with
  | some _ => .error (.typeError "synonyms must be a set of Synonym")
  | none => .ok { data with synonyms := syns }

/-- `Entity.xrefs` setter: after the set-type check, the source
iterates `(x for x in synonyms if not isinstance(x, Xref))`, but no
name `synonyms` is bound in that scope, so creating the generator
raises NameError before anything is validated or stored. -/
def xrefs_setter (data : EntityData) (xrefs : List PyVal) :
    Except PyErr EntityData :=
  .error (.nameError "name synonyms is not defined")

/-- `Entity.subsets` setter for a set of strings (the isinstance check
passes): each subset id must equal the id of some declared `SubsetDef`
of the owning ontology's metadata, else `ValueError` (the source's
realization of the spec's ValidationError); on success `set(subsets)`
is stored. -/
def subsets_setter (ont : Ontology) (data : EntityData) (subsets : List PyStr) :
    Except PyErr EntityData :=
  match subsets.find?
      (fun subset => ! ont.metadata.subsetdefs.any (fun sd => subset == sd.id)) with
  | some _ => .error (.valueError "undeclared subset")
  | none => .ok { data with subsets := subsets }

/-- `Entity.subsets` getter (`frozenset(self._data().subsets)`). -/
def subsets_getter (data : EntityData) : List PyStr :=
  data.subsets

/-- A sample record for concrete evaluations. -/
def sampleData : EntityData :=
  { id := "GO:0000001".data, alternate_ids := [], subsets := [], synonyms := [], xrefs := [] }

/-- A sample ontology declaring the single subset `goslim_generic`. -/
def sampleOntology : Ontology :=
  { metadata := { subsetdefs := [{ id := "goslim_generic".data }] } }

/-- C1 (code evaluation at the failing inputs): the `alternate_ids`
setter rejects a set whose elements are all `str` and accepts a set of
non-`str` elements — the opposite of the claim — and the `xrefs`
setter raises NameError on every assignment; only the `synonyms`
setter behaves as the claim states. -/
theorem entity_setter_type_check_bug :
    alternate_ids_setter sampleData [PyVal.str "GO:0000002".data] =
      .error (.typeError "alternate_ids must be a set of str, not str") ∧
    alternate_ids_setter sampleData [PyVal.intVal 7] =
      .ok { sampleData with alternate_ids := [PyVal.intVal 7] } ∧
    xrefs_setter sampleData [PyVal.xrefObj "PMID:1".data] =
      .error (.nameError "name synonyms is not defined") ∧
    synonyms_setter sampleData [PyVal.synonymObj "syn".data] =
      .ok { sampleData with synonyms := [PyVal.synonymObj "syn".data] } ∧
    synonyms_setter sampleData [PyVal.str "syn".data] =
      .error (.typeError "synonyms must be a set of Synonym") :=
  ⟨rfl, rfl, rfl, rfl, rfl⟩

/-- C2: assigning subsets containing an id that matches no declared
SubsetDef fails with the validation error, and assigning a set whose
every id is declared succeeds, with the getter returning exactly the
assigned set. -/
theorem subsets_assignment_validated (ont : Ontology) (data : EntityData)
    (subsets : List PyStr) :
    ((∃ s ∈ subsets, ∀ sd ∈ ont.metadata.subsetdefs, s ≠ sd.id) →
      subsets_setter ont data subsets = .error (.valueError "undeclared subset")) ∧
    ((∀ s ∈ subsets, ∃ sd ∈ ont.metadata.subsetdefs, s = sd.id) →
      subsets_setter ont data subsets = .ok { data with subsets := subsets } ∧
      subsets_getter { data with subsets := subsets } = subsets) := by
  constructor
  · rintro ⟨s, hs, hbad⟩
    rw [subsets_setter]
    cases hf : subsets.find?
        (fun subset => ! ont.metadata.subsetdefs.any (fun sd => subset == sd.id)) with
    | none =>
      exfalso
      have := List.find?_eq_none.mp hf s hs
      simp only [Bool.not_eq_true', List.any_eq_true, beq_iff_eq, Bool.not_eq_false] at this
      rcases this with ⟨sd, hsd, heq⟩
      exact hbad sd hsd heq
    | some bad => rfl
  · intro hgood
    have hf : subsets.find?
        (fun subset => ! ont.metadata.subsetdefs.any (fun sd => subset == sd.id)) = none := by
      rw [List.find?_eq_none]
      intro s hs
      rcases hgood s hs with ⟨sd, hsd, heq⟩
      simp only [Bool.not_eq_true', List.any_eq_true, beq_iff_eq, Bool.not_eq_false]
      exact ⟨sd, hsd, heq⟩
    rw [subsets_setter, hf]
    exact ⟨rfl, rfl⟩

/-- Witness for C2: with only `goslim_generic` declared, assigning
`{"undeclared"}` fails and assigning `{"goslim_generic"}` succeeds and
reads back. -/
theorem subsets_assignment_validated_witness :
    subsets_setter sampleOntology sampleData ["undeclared".data] =
      .error (.valueError "undeclared subset") ∧
    subsets_setter sampleOntology sampleData ["goslim_generic".data] =
      .ok { sampleData with subsets := ["goslim_generic".data] } ∧
    subsets_getter { sampleData with subsets := ["goslim_generic".data] } =
      ["goslim_generic".data] := by
  refine ⟨?_, ?_⟩
  · exact (subsets_assignment_validated sampleOntology sampleData ["undeclared".data]).1
      (by exact ⟨"undeclared".data, by simp, by decide⟩)
  · exact (subsets_assignment_validated sampleOntology sampleData ["goslim_generic".data]).2
      (by intro s hs; rw [List.mem_singleton] at hs; exact ⟨{ id := "goslim_generic".data }, by simp [sampleOntology], by rw [hs]⟩)

/-- A live `Entity` view: the dereferenced weak references to the
owning ontology and the owned record (the claims concern live views,
so the referents are present). -/
structure EntityView where
  ontology : Ontology
  data : EntityData
deriving DecidableEq, Repr

/-- `Entity.id` property (reads the record through the view). -/
def EntityView.entityId (e : EntityView) : PyStr :=
  e.data.id

/-- A Python value an `Entity` may be compared against with `==`. -/
inductive PyObject
  | entity (e : EntityView)
  | str (s : PyStr)
  | intVal (n : Int)
  | noneVal
deriving DecidableEq, Repr

def PyObject.isEntity : PyObject → Bool
  | .entity _ => true
  | _ => false

/-- `Entity.__eq__`: `False` for non-Entities, id comparison between
Entities. -/
def entityEq (self : EntityView) : PyObject → Bool
  | .entity other => self.entityId == other.entityId
  | _ => false

/-- `Entity.__hash__` = `hash((self.id))`. -/
def entityHash (e : EntityView) : UInt64 :=
  hash e.entityId

/-- C10: entity identity is the id alone — two live views are equal
exactly when their ids are equal (whatever their ontologies or
records), equal entities have equal hashes, and comparing with a
non-Entity value yields `False` rather than an error. -/
theorem entity_identity_is_id (e1 e2 : EntityView) (v : PyObject)
    (hv : v.isEntity = false) :
    (entityEq e1 (.entity e2) = true ↔ e1.entityId = e2.entityId) ∧
    (entityEq e1 (.entity e2) = true → entityHash e1 = entityHash e2) ∧
    entityEq e1 v = false := by
  refine ⟨?_, ?_, ?_⟩
  · rw [entityEq]
    exact beq_iff_eq
  · intro he
    rw [entityEq] at he
    rw [entityHash, entityHash, eq_of_beq he]
  · cases v with
    | entity o => rw [PyObject.isEntity] at hv; exact Bool.noConfusion hv
    | str s => rfl
    | intVal n => rfl
    | noneVal => rfl

/-- Witness for C10 at two views over different ontologies holding
records with the same id, compared also against a plain string. -/
theorem entity_identity_is_id_witness :
    (PyObject.str "GO:0000001".data).isEntity = false ∧
    (entityEq { ontology := sampleOntology, data := sampleData }
        (.entity { ontology := { metadata := { subsetdefs := [] } },
                   data := { sampleData with synonyms := [PyVal.synonymObj "s".data] } }) = true ↔
      sampleData.id = sampleData.id) ∧
    entityEq { ontology := sampleOntology, data := sampleData }
      (PyObject.str "GO:0000001".data) = false := by
  refine ⟨rfl, ?_, ?_⟩
  · exact (entity_identity_is_id
      { ontology := sampleOntology, data := sampleData }
      { ontology := { metadata := { subsetdefs := [] } },
        data := { sampleData with synonyms := [PyVal.synonymObj "s".data] } }
      (PyObject.str "GO:0000001".data) rfl).1
  · exact (entity_identity_is_id
      { ontology := sampleOntology, data := sampleData }
      { ontology := { metadata := { subsetdefs := [] } },
        data := { sampleData with synonyms := [PyVal.synonymObj "s".data] } }
      (PyObject.str "GO:0000001".data) rfl).2.2

/-! ### The OWL-XML classifier (`pronto/parser/owl.py`) -/

/-- An XML element as handed to `_classify` after `etree.fromstring`:
expanded tag, attribute dictionary (document order), text, children. -/
inductive XMLElem
  | node (tag : String) (attrib : List (String × String)) (text : Option String)
      (children : List XMLElem)
deriving Repr

def XMLElem.tag : XMLElem → String
  | .node t _ _ _ => t

def XMLElem.attrib : XMLElem → List (String × String)
  | .node _ a _ _ => a

def XMLElem.text : XMLElem → Option String
  | .node _ _ x _ => x

/-- `elem.get(key)`: attribute lookup returning `None` when absent. -/
def XMLElem.get (e : XMLElem) (k : String) : Option String :=
  (e.attrib.find? (fun p => p.1 == k)).map Prod.snd

mutual
/-- `elem.iter()`: the element itself followed by every descendant in
document order. -/
def XMLElem.iterAll : XMLElem → List XMLElem
  | .node t a x cs => .node t a x cs :: XMLElem.iterList cs

def XMLElem.iterList : List XMLElem → List XMLElem
  | [] => []
  | c :: cs => XMLElem.iterAll c ++ XMLElem.iterList cs
end

/-- `pronto.utils.explicit_namespace`: split the abbreviated name on
the first `':'` and wrap the bound URI in braces; `none` models the
KeyError of an unbound prefix (or the unpacking error when there is no
colon). -/
def explicit_namespace (attr : String) (nsmap : List (String × String)) : Option String :=
  match pySplit [':'] attr.data with
  | [] => none
  | [_] => none
  | pfx :: rest =>
    match nsmap.find? (fun p => p.1 == (⟨pfx⟩ : String)) with
    | none => none
    | some pr => some ("\x7b" ++ pr.2 ++ "\x7d" ++ (⟨pyJoin [':'] rest⟩ : String))

/-- The fixed namespace map built in `_OwlXMLClassifier.__init__`. -/
def classifierNS : List (String × String) :=
  [("rdf", "http://www.w3.org/1999/02/22-rdf-syntax-ns#"),
   ("rdfs", "http://www.w3.org/2000/01/rdf-schema#")]

/-- `self.nspaced`: expansion against the classifier's fixed map (all
five names used by `_classify` are bound, so the default is never
taken). -/
def nspaced (attr : String) : String :=
  (explicit_namespace attr classifierNS).getD ""

/-- `self.accession`: `format_accession` partially applied to the
classifier's fixed map, whose values are stripped in dict order. -/
def classifierAccession (s : String) : String :=
  format_accessionS s
    ["http://www.w3.org/1999/02/22-rdf-syntax-ns#",
     "http://www.w3.org/2000/01/rdf-schema#"]

/-- The working dictionary `term_dict` built by `_classify`, starting
as `{'name': '', 'relations': {}, 'desc': ''}`; the comment rule can
add the `other` key through `dict.update`. -/
structure TermDict where
  name : Option String
  relations : List (String × List String)
  desc : DescVal
  other : Option OtherDict
deriving DecidableEq, Repr

/-- The relation dictionary update of the `'list'` action:
`d[k].append(v)` falling back to `d[k] = [v]` on KeyError. -/
def relAppend (rels : List (String × List String)) (k v : String) :
    List (String × List String) :=
  if (rels.find? (fun p => p.1 == k)).isSome then
    rels.map (fun p => if p.1 == k then (p.1, p.2 ++ [v]) else p)
  else rels ++ [(k, [v])]

def relGet (rels : List (String × List String)) (k : String) : Option (List String) :=
  (rels.find? (fun p => p.1 == k)).map Prod.snd

/-- Python `a or b` on optional attribute values: a missing attribute
(`None`) and an empty string are both falsy. -/
def pyOrStr (a b : Option String) : Option String :=
  match a with
  | some s => if s.data.isEmpty then b else some s
  | none => b

/-- `dict.update` of the parsed comment into `term_dict`: present keys
overwrite wholesale. -/
def updateTermDict (d : TermDict) (p : ParsedComment) : TermDict :=
  { d with
    desc := match p.desc with | some v => v | none => d.desc,
    other := match p.other with | some o => some o | none => d.other }

/-- One pass of the `translator` rule table over a child element: the
three rules are checked in order and every matching one fires (there
is no break in the source). -/
def applyRules (acc : Except PyErr TermDict) (c : XMLElem) : Except PyErr TermDict :=
  match acc with
  | .error e => .error e
  | .ok d =>
    let d1 := if c.tag == nspaced "rdfs:label" then { d with name := c.text } else d
    let r2 : Except PyErr TermDict :=
      if c.tag == nspaced "rdfs:subClassOf" && (c.get (nspaced "rdf:resource")).isSome then
        match pyOrStr (c.get (nspaced "rdf:resource")) (c.get (nspaced "rdf:about")) with
        | none => .error (.attributeError "NoneType has no attribute replace")
        | some target =>
            .ok { d1 with relations := relAppend d1.relations "is_a" (classifierAccession target) }
      else .ok d1
    match r2 with
    | .error e => .error e
    | .ok d2 =>
      if c.tag == nspaced "rdfs:comment" then
        match OwlXML.parse_comment (c.text.map String.data) with
        | .error e => .error e
        | .ok p => .ok (updateTermDict d2 p)
      else .ok d2

/-- `_OwlXMLClassifier._classify`: `.ok none` models the falsy `{}`
returned for an attribute-less element (not emitted by `run`); a
missing `rdf:about` makes the accession call fail on `None`. -/
def classify (term : XMLElem) : Except PyErr (Option (String × TermDict)) :=
  if term.attrib.isEmpty then .ok none
  else
    match term.get (nspaced "rdf:about") with
    | none => .error (.attributeError "NoneType has no attribute replace")
    | some rawId =>
      match (XMLElem.iterAll term).foldl applyRules
          (.ok { name := some "", relations := [], desc := DescVal.str [], other := none }) with
      | .error e => .error e
      | .ok d => .ok (some (classifierAccession rawId, d))

/-- A raw queue item handed to a classifier worker: a serialized
element that either parses back or raises a ParseError
(`malformed`).  The sentinel `None` is the `none` of the outer
`Option`. -/
inductive RawItem
  | malformed
  | elem (e : XMLElem)
deriving Repr

/-- `_OwlXMLClassifier.run`: consume the raw queue until the sentinel
(break emitting nothing), a parse error (emit the `(None, None)`
poison and break), or an uncaught classification error (the process
dies emitting nothing more); truthy classification results are emitted
to the result queue in order.  A result message `none` is the
`(None, None)` poison pair. -/
def workerRun : List (Option RawItem) → List (Option (String × TermDict))
  | [] => []
  | none :: _ => []
  | some .malformed :: _ => [none]
  | some (.elem e) :: rest =>
    match classify e with
    | .error _ => []
    | .ok none => workerRun rest
    | .ok (some r) => some r :: workerRun rest

/-- Modelled from the spec: `pronto.term.Term` is not under src/; per
§3 it is the id-keyed record holding the classified fields passed as
`Term(tid, **d)`.  The `Relationship` wrapper (also not under src/) is
identified by its relation-type name. -/
structure Term where
  id : String
  name : Option String
  relations : List (String × List String)
  desc : DescVal
  other : Option OtherDict
deriving DecidableEq, Repr

/-- `self.terms[tid] = term`: Python dict assignment (overwrite in
place, insert at the end when new). -/
def termsSet (t : List (String × Term)) (k : String) (v : Term) :
    List (String × Term) :=
  if (t.find? (fun p => p.1 == k)).isSome then
    t.map (fun p => if p.1 == k then (p.1, v) else p)
  else t ++ [(k, v)]

def termsGet (t : List (String × Term)) (k : String) : Option Term :=
  (t.find? (fun p => p.1 == k)).map Prod.snd

/-- One iteration of `OwlXMLParser.makeTree` on a dequeued
`(tid, d)` pair: re-normalize the id and every relation target against
the document namespace values, then overwrite the term table entry. -/
def makeTreeStep (nsvals : List String) (terms : List (String × Term))
    (tid : String) (d : TermDict) : List (String × Term) :=
  let tid' := format_accessionS tid nsvals
  let rels := d.relations.map (fun p => (p.1, p.2.map (fun x => format_accessionS x nsvals)))
  termsSet terms tid'
    { id := tid', name := d.name, relations := rels, desc := d.desc, other := d.other }

/-- `OwlXMLParser.makeTree`'s consumption loop over the result queue:
stop at the `(None, None)` poison, otherwise merge each record into the
term table. -/
def makeTree (nsvals : List String) :
    List (Option (String × TermDict)) → List (String × Term) → List (String × Term)
  | [], terms => terms
  | none :: _, terms => terms
  | some (tid, d) :: rest, terms => makeTree nsvals rest (makeTreeStep nsvals terms tid d)

/-- The one-worker ingestion pipeline: scan queues the elements and a
sentinel, the worker classifies, `makeTree` merges. -/
def ingestDoc (nsvals : List String) (queue : List (Option RawItem)) :
    List (String × Term) :=
  makeTree nsvals (workerRun queue) []

/-- The one-frame document of the spec's §8 example: an `owl:Class`
with id `GO:0000001`, label `"test"`, and one `is_a` edge to
`GO:0000002`. -/
def goElem : XMLElem :=
  .node "\x7bhttp://www.w3.org/2002/07/owl#\x7dClass"
    [("\x7bhttp://www.w3.org/1999/02/22-rdf-syntax-ns#\x7dabout", "GO_0000001")]
    none
    [ .node "\x7bhttp://www.w3.org/2000/01/rdf-schema#\x7dlabel" [] (some "test") [],
      .node "\x7bhttp://www.w3.org/2000/01/rdf-schema#\x7dsubClassOf"
        [("\x7bhttp://www.w3.org/1999/02/22-rdf-syntax-ns#\x7dresource", "GO_0000002")]
        none [] ]

/-- The `rdfs:label` descendants, in document order. -/
def labelsOf (cs : List XMLElem) : List XMLElem :=
  cs.filter (fun c => c.tag == nspaced "rdfs:label")

/-- The hook of the `is_a` rule: an `rdfs:subClassOf` element carrying
an `rdf:resource` attribute. -/
def isaEligible (c : XMLElem) : Bool :=
  c.tag == nspaced "rdfs:subClassOf" && (c.get (nspaced "rdf:resource")).isSome

/-- The `is_a` targets the rule table collects from a list of
elements, in document order, duplicates retained. -/
def isaTargetsOf (cs : List XMLElem) : List String :=
  (cs.filter isaEligible).map
    (fun c => classifierAccession ((c.get (nspaced "rdf:resource")).getD ""))

/-- Appending onto an optional edge list (absent key versus present
key of the relations dictionary). -/
def optAppend (o : Option (List String)) (ts : List String) : Option (List String) :=
  match o with
  | some l => some (l ++ ts)
  | none => if ts.isEmpty then none else some ts

lemma optAppend_nil (o : Option (List String)) : optAppend o [] = o := by
  cases o with
  | none => rfl
  | some l => simp [optAppend]

lemma optAppend_assoc (o : Option (List String)) (t1 t2 : List String) :
    optAppend (optAppend o t1) t2 = optAppend o (t1 ++ t2) := by
  cases o with
  | some l => simp [optAppend]
  | none =>
    cases t1 with
    | nil => simp [optAppend]
    | cons a t1 => simp [optAppend]

lemma relGet_relAppend (rels : List (String × List String)) (k v : String) :
    relGet (relAppend rels k v) k = some ((relGet rels k).getD [] ++ [v]) := by
  rw [relAppend]
  cases hfind : rels.find? (fun p => p.1 == k) with
  | none =>
    simp only [Option.isSome_none, Bool.false_eq_true, if_false]
    rw [relGet, List.find?_append, hfind]
    simp [relGet, hfind]
  | some pr =>
    simp only [Option.isSome_some, if_true]
    have hpr : (pr.1 == k) = true := by
      have h0 := List.find?_some hfind
      simpa using h0
    rw [relGet, List.find?_map]
    have hcong : ((fun p : String × List String => p.1 == k) ∘
        (fun p : String × List String => if p.1 == k then (p.1, p.2 ++ [v]) else p)) =
        (fun p : String × List String => p.1 == k) := by
      funext p
      by_cases hp : p.1 = k
      · simp [hp]
      · simp [hp]
    rw [hcong, hfind]
    simp [relGet, hfind, eq_of_beq hpr]

lemma termsGet_termsSet (t : List (String × Term)) (k0 k : String) (v : Term) :
    termsGet (termsSet t k0 v) k = if k == k0 then some v else termsGet t k := by
  rw [termsSet]
  cases hfind : t.find? (fun p => p.1 == k0) with
  | none =>
    simp only [Option.isSome_none, Bool.false_eq_true, if_false]
    rw [termsGet, List.find?_append]
    by_cases hk : (k == k0) = true
    · have hk' : k = k0 := eq_of_beq hk
      subst hk'
      rw [termsGet] at *
      rw [hfind]
      simp
    · have hk2 : (k0 == k) = false := by
        rw [beq_eq_false_iff_ne]
        intro he
        rw [he] at hk
        simp at hk
      rw [termsGet]
      simp only [hk, if_false]
      cases hf2 : t.find? (fun p => p.1 == k) with
      | some pr => simp [hf2]
      | none => simp [hf2, List.find?, hk2]
  | some pr =>
    simp only [Option.isSome_some, if_true]
    have hpr : (pr.1 == k0) = true := by
      have h0 := List.find?_some hfind
      simpa using h0
    rw [termsGet, List.find?_map]
    have hcong : ((fun p : String × Term => p.1 == k) ∘
        (fun p : String × Term => if p.1 == k0 then (p.1, v) else p)) =
        (fun p : String × Term => p.1 == k) := by
      funext p
      by_cases hp : p.1 = k0
      · simp [hp]
      · simp [hp]
    rw [hcong]
    by_cases hk : (k == k0) = true
    · have hk' : k = k0 := eq_of_beq hk
      subst hk'
      rw [hfind]
      simp [eq_of_beq hpr]
    · rw [termsGet]
      simp only [hk, if_false]
      cases hf2 : t.find? (fun p => p.1 == k) with
      | none => simp
      | some pr2 =>
        have hpr2 : (pr2.1 == k) = true := by
          have h0 := List.find?_some hf2
          simpa using h0
        have hne : (pr2.1 == k0) = false := by
          rw [beq_eq_false_iff_ne]
          intro he
          rw [eq_of_beq hpr2] at he  -- pr2.1 = k, so k = k0
          rw [he] at hk
          simp at hk
        simp [hne, beq_eq_false_iff_ne.mp hne]

lemma optAppend_single (o : Option (List String)) (x : String) :
    optAppend o [x] = some (o.getD [] ++ [x]) := by
  cases o with
  | none => rfl
  | some l => rfl

/-- One rule-table pass characterized: the label rule stores the
element text as name, the `is_a` rule appends the accessioned target,
the comment rule leaves name and relations alone. -/
lemma applyRules_ok (d : TermDict) (c : XMLElem)
    (hres : isaEligible c = true → c.get (nspaced "rdf:resource") ≠ some "")
    (hcom : (c.tag == nspaced "rdfs:comment") = true →
        (OwlXML.parse_comment (c.text.map String.data)).isOk = true) :
    ∃ d', applyRules (.ok d) c = .ok d' ∧
      d'.name = (if c.tag == nspaced "rdfs:label" then c.text else d.name) ∧
      relGet d'.relations "is_a" =
        optAppend (relGet d.relations "is_a")
          (if isaEligible c then
            [classifierAccession ((c.get (nspaced "rdf:resource")).getD "")] else []) := by
  by_cases hsub : (c.tag == nspaced "rdfs:subClassOf" && (c.get (nspaced "rdf:resource")).isSome) = true
  · have hsubeq : isaEligible c = true := hsub
    have hand : (c.tag == nspaced "rdfs:subClassOf") = true ∧
        (c.get (nspaced "rdf:resource")).isSome = true := by
      simpa using hsub
    have htag : c.tag = nspaced "rdfs:subClassOf" := eq_of_beq hand.1
    have hlab : (c.tag == nspaced "rdfs:label") = false := by
      rw [htag]; decide
    have hcomf : (c.tag == nspaced "rdfs:comment") = false := by
      rw [htag]; decide
    have h2 := hand.2
    cases hget : c.get (nspaced "rdf:resource") with
    | none => rw [hget] at h2; simp at h2
    | some v =>
      have hv : v ≠ "" := by
        intro he
        exact hres hsubeq (by rw [hget, he])
      have hvd : v.data.isEmpty = false := by
        cases hve : v.data.isEmpty
        · rfl
        · exfalso
          apply hv
          cases v with
          | mk vd =>
            have : vd = [] := by simpa [List.isEmpty_iff] using hve
            rw [this]
      have hpy : pyOrStr (c.get (nspaced "rdf:resource")) (c.get (nspaced "rdf:about")) = some v := by
        rw [hget, pyOrStr]
        simp [hvd]
      refine ⟨{ d with relations := relAppend d.relations "is_a" (classifierAccession v) },
        ?_, ?_, ?_⟩
      · rw [applyRules]
        simp only [hlab, Bool.false_eq_true, if_false, hsub, if_true, hpy, hcomf]
      · simp [hlab]
      · simp only [hsubeq, if_true, relGet_relAppend, optAppend_single, hget, Option.getD_some]
  · have hsubf : isaEligible c = false := by
      rw [isaEligible]
      exact Bool.not_eq_true _ ▸ (by simpa using hsub)
    by_cases hlab : (c.tag == nspaced "rdfs:label") = true
    · have htag : c.tag = nspaced "rdfs:label" := eq_of_beq hlab
      have hcomf : (c.tag == nspaced "rdfs:comment") = false := by
        rw [htag]; decide
      refine ⟨{ d with name := c.text }, ?_, ?_, ?_⟩
      · rw [applyRules]
        simp only [hlab, if_true, hsub, Bool.false_eq_true, if_false, hcomf]
      · simp [hlab]
      · simp [hsubf, optAppend_nil]
    · by_cases hcomq : (c.tag == nspaced "rdfs:comment") = true
      · have hok := hcom hcomq
        cases hparse : OwlXML.parse_comment (c.text.map String.data) with
        | error e => rw [hparse] at hok; exact Bool.noConfusion hok
        | ok p =>
          refine ⟨updateTermDict d p, ?_, ?_, ?_⟩
          · rw [applyRules]
            simp only [hlab, Bool.false_eq_true, if_false, hsub, hcomq, if_true, hparse]
          · simp [updateTermDict, hlab]
          · simp [updateTermDict, hsubf, optAppend_nil]
      · refine ⟨d, ?_, ?_, ?_⟩
        · rw [applyRules]
          simp only [hlab, Bool.false_eq_true, if_false, hsub,
            hcomq, if_false]
        · simp [hlab]
        · simp [hsubf, optAppend_nil]

/-- Peeling one element off the last-label-wins computation. -/
lemma labels_getLast_cons (c : XMLElem) (cs : List XMLElem) (base : Option String) :
    ((labelsOf (c :: cs)).getLast?.map XMLElem.text).getD base =
      ((labelsOf cs).getLast?.map XMLElem.text).getD
        (if c.tag == nspaced "rdfs:label" then c.text else base) := by
  rw [labelsOf, labelsOf, List.filter_cons]
  by_cases h : (c.tag == nspaced "rdfs:label") = true
  · simp only [h, if_true]
    cases hcs : List.filter (fun c => c.tag == nspaced "rdfs:label") cs with
    | nil => simp
    | cons c2 rest =>
      rw [List.getLast?_cons_cons]
      cases hlast : (c2 :: rest).getLast? with
      | none => simp at hlast
      | some x => simp
  · simp only [h, Bool.false_eq_true, if_false]

/-- Peeling one element off the `is_a` target computation. -/
lemma isaTargetsOf_cons (c : XMLElem) (cs : List XMLElem) :
    isaTargetsOf (c :: cs) =
      (if isaEligible c then
        [classifierAccession ((c.get (nspaced "rdf:resource")).getD "")] else []) ++
      isaTargetsOf cs := by
  rw [isaTargetsOf, isaTargetsOf, List.filter_cons]
  by_cases h : isaEligible c = true
  · simp [h]
  · simp [h]

/-- The whole rule-table fold characterized: last label text wins for
name, the `is_a` edges accumulate in document order with duplicates
retained. -/
lemma applyRules_foldl (cs : List XMLElem) : ∀ d : TermDict,
    (∀ c ∈ cs, isaEligible c = true → c.get (nspaced "rdf:resource") ≠ some "") →
    (∀ c ∈ cs, (c.tag == nspaced "rdfs:comment") = true →
        (OwlXML.parse_comment (c.text.map String.data)).isOk = true) →
    ∃ d', cs.foldl applyRules (.ok d) = .ok d' ∧
      d'.name = ((labelsOf cs).getLast?.map XMLElem.text).getD d.name ∧
      relGet d'.relations "is_a" = optAppend (relGet d.relations "is_a") (isaTargetsOf cs) := by
  induction cs with
  | nil =>
    intro d _ _
    exact ⟨d, rfl, rfl, (optAppend_nil _).symm⟩
  | cons c cs ih =>
    intro d hres hcom
    obtain ⟨d1, h1, hname1, hrel1⟩ := applyRules_ok d c (hres c (by simp)) (hcom c (by simp))
    obtain ⟨d', h2, hname2, hrel2⟩ := ih d1
      (fun x hx => hres x (by simp [hx])) (fun x hx => hcom x (by simp [hx]))
    refine ⟨d', ?_, ?_, ?_⟩
    · rw [List.foldl_cons, h1, h2]
    · rw [hname2, hname1, labels_getLast_cons]
    · rw [hrel2, hrel1, optAppend_assoc, isaTargetsOf_cons]

/-- C7: classifying a queued `owl:Class` element stores the text of the
last `rdfs:label` descendant in document order as name and appends each
`rdfs:subClassOf` descendant carrying a target resource attribute to
the `is_a` edge list in document order, duplicates retained; ingesting
the one-frame document with id `GO:0000001`, label `"test"` and one
`is_a` edge to `GO:0000002` yields exactly that term. -/
theorem classify_stores_label_and_isa (term : XMLElem) (rawId : String)
    (hattr : term.attrib.isEmpty = false)
    (hid : term.get (nspaced "rdf:about") = some rawId)
    (hres : ∀ c ∈ XMLElem.iterAll term, isaEligible c = true →
        c.get (nspaced "rdf:resource") ≠ some "")
    (hcom : ∀ c ∈ XMLElem.iterAll term, (c.tag == nspaced "rdfs:comment") = true →
        (OwlXML.parse_comment (c.text.map String.data)).isOk = true) :
    (∃ d, classify term = .ok (some (classifierAccession rawId, d)) ∧
        d.name = ((labelsOf (XMLElem.iterAll term)).getLast?.map XMLElem.text).getD (some "") ∧
        relGet d.relations "is_a" = optAppend none (isaTargetsOf (XMLElem.iterAll term))) ∧
    ingestDoc [] [some (.elem goElem), none] =
      [("GO:0000001",
        { id := "GO:0000001", name := some "test",
          relations := [("is_a", ["GO:0000002"])],
          desc := DescVal.str [], other := none })] := by
  constructor
  · obtain ⟨d, h1, h2, h3⟩ := applyRules_foldl (XMLElem.iterAll term)
      { name := some "", relations := [], desc := DescVal.str [], other := none } hres hcom
    refine ⟨d, ?_, h2, ?_⟩
    · rw [classify, if_neg (by simp [hattr]), hid]
      show (match (XMLElem.iterAll term).foldl applyRules
          (Except.ok { name := some "", relations := [], desc := DescVal.str [], other := none }) with
        | Except.error e => Except.error e
        | Except.ok d => Except.ok (some (classifierAccession rawId, d))) = _
      rw [h1]
    · exact h3
  · decide

/-- Witness for C7: the general theorem applied to the concrete
one-frame element. -/
theorem classify_stores_label_and_isa_witness :
    goElem.attrib.isEmpty = false ∧
    goElem.get (nspaced "rdf:about") = some "GO_0000001" ∧
    (∃ d, classify goElem = .ok (some (classifierAccession "GO_0000001", d)) ∧
        d.name = ((labelsOf (XMLElem.iterAll goElem)).getLast?.map XMLElem.text).getD (some "") ∧
        relGet d.relations "is_a" = optAppend none (isaTargetsOf (XMLElem.iterAll goElem))) := by
  refine ⟨by decide, by decide, ?_⟩
  exact (classify_stores_label_and_isa goElem "GO_0000001"
    (by decide) (by decide) (by decide) (by decide)).1

/-- The `Term(tid, **d)` value built by one `makeTree` iteration. -/
def mkTerm (nsvals : List String) (tid : String) (d : TermDict) : Term :=
  { id := format_accessionS tid nsvals, name := d.name,
    relations := d.relations.map (fun p => (p.1, p.2.map (fun x => format_accessionS x nsvals))),
    desc := d.desc, other := d.other }

lemma makeTreeStep_eq (nsvals : List String) (terms : List (String × Term))
    (tid : String) (d : TermDict) :
    makeTreeStep nsvals terms tid d =
      termsSet terms (format_accessionS tid nsvals) (mkTerm nsvals tid d) := rfl

/-- `makeTree` consumes a poison-free run of records by folding the
merge step. -/
lemma makeTree_map_some (ns : List String) (rs : List (String × TermDict))
    (tailq : List (Option (String × TermDict))) (t : List (String × Term)) :
    makeTree ns (rs.map some ++ tailq) t =
      makeTree ns tailq (rs.foldl (fun acc r => makeTreeStep ns acc r.1 r.2) t) := by
  induction rs generalizing t with
  | nil => rfl
  | cons r rest ih =>
    obtain ⟨tid, d⟩ := r
    rw [List.map_cons, List.cons_append, makeTree, ih, List.foldl_cons]

lemma makeTree_poison (ns : List String) (q : List (Option (String × TermDict)))
    (t : List (String × Term)) : makeTree ns (none :: q) t = t := by
  rw [makeTree]

/-- Last-write-wins characterization of the merged table: the entry
for a key is the `Term` of the last record normalizing to it. -/
lemma termsGet_foldl_steps (ns : List String) (rs : List (String × TermDict))
    (k : String) : ∀ t : List (String × Term),
    termsGet (rs.foldl (fun acc r => makeTreeStep ns acc r.1 r.2) t) k =
      (match rs.reverse.find? (fun r => format_accessionS r.1 ns == k) with
       | some r => some (mkTerm ns r.1 r.2)
       | none => termsGet t k) := by
  induction rs with
  | nil => intro t; rfl
  | cons r rest ih =>
    intro t
    rw [List.foldl_cons, ih, List.reverse_cons, List.find?_append]
    cases hf : rest.reverse.find? (fun x => format_accessionS x.1 ns == k) with
    | some r' => simp [Option.or]
    | none =>
      simp only [Option.or]
      by_cases hk : format_accessionS r.1 ns = k
      · rw [makeTreeStep_eq, termsGet_termsSet]
        simp [List.find?, hk]
      · rw [makeTreeStep_eq, termsGet_termsSet]
        have hk1 : (k == format_accessionS r.1 ns) = false := by
          rw [beq_eq_false_iff_ne]
          exact fun he => hk he.symm
        have hk2 : (format_accessionS r.1 ns == k) = false := by
          rw [beq_eq_false_iff_ne]
          exact hk
        simp [List.find?, hk1, hk2]

/-- Document A's single classified record for `GO:0000001` (one `is_a`
edge to `GO:0000002`). -/
def recA : String × TermDict :=
  ("GO:0000001",
   { name := some "", relations := [("is_a", ["GO:0000002"])],
     desc := DescVal.str [], other := none })

/-- Document B's record for the same id with a different `is_a` edge. -/
def recB : String × TermDict :=
  ("GO:0000001",
   { name := some "", relations := [("is_a", ["GO:0000003"])],
     desc := DescVal.str [], other := none })

/-- C6 counterexample: merging two records for the same id is not
order-independent and does not union the edge lists: A-then-B keeps
only B's `is_a` list (the later record overwrites the earlier
wholesale), so the two orders give different tables. -/
theorem makeTree_merge_not_commutative :
    makeTree [] [some recA, some recB] [] ≠ makeTree [] [some recB, some recA] [] ∧
    termsGet (makeTree [] [some recA, some recB] []) "GO:0000001" =
      some { id := "GO:0000001", name := some "",
             relations := [("is_a", ["GO:0000003"])],
             desc := DescVal.str [], other := none } := by
  constructor
  · decide
  · decide

/-- C6 (amended): `makeTree` merges by overwriting the whole record,
so for each id the last-merged record wins; merging A's records then
B's yields a table with entrywise identical contents to merging B's
then A's whenever no normalized id occurs in both record lists. -/
theorem makeTree_merge_commutes_for_disjoint_ids (ns : List String)
    (A B : List (String × TermDict))
    (hdisj : ∀ ra ∈ A, ∀ rb ∈ B,
        format_accessionS ra.1 ns ≠ format_accessionS rb.1 ns) :
    ∀ k, termsGet (makeTree ns ((A ++ B).map some) []) k =
         termsGet (makeTree ns ((B ++ A).map some) []) k := by
  intro k
  have h1 : makeTree ns ((A ++ B).map some) [] =
      (A ++ B).foldl (fun acc r => makeTreeStep ns acc r.1 r.2) [] := by
    have := makeTree_map_some ns (A ++ B) [] []
    rw [List.append_nil] at this
    rw [this]
    rfl
  have h2 : makeTree ns ((B ++ A).map some) [] =
      (B ++ A).foldl (fun acc r => makeTreeStep ns acc r.1 r.2) [] := by
    have := makeTree_map_some ns (B ++ A) [] []
    rw [List.append_nil] at this
    rw [this]
    rfl
  rw [h1, h2, termsGet_foldl_steps, termsGet_foldl_steps,
    List.reverse_append, List.reverse_append, List.find?_append, List.find?_append]
  cases hfa : A.reverse.find? (fun r => format_accessionS r.1 ns == k) with
  | some ra =>
    cases hfb : B.reverse.find? (fun r => format_accessionS r.1 ns == k) with
    | some rb =>
      exfalso
      have hma : ra ∈ A := List.mem_reverse.mp (List.mem_of_find?_eq_some hfa)
      have hmb : rb ∈ B := List.mem_reverse.mp (List.mem_of_find?_eq_some hfb)
      have hpa : (format_accessionS ra.1 ns == k) = true := by
        have h0 := List.find?_some hfa
        simpa using h0
      have hpb : (format_accessionS rb.1 ns == k) = true := by
        have h0 := List.find?_some hfb
        simpa using h0
      exact hdisj ra hma rb hmb ((eq_of_beq hpa).trans (eq_of_beq hpb).symm)
    | none => simp [Option.or]
  | none =>
    cases hfb : B.reverse.find? (fun r => format_accessionS r.1 ns == k) with
    | some rb => simp [Option.or]
    | none => simp [Option.or]

/-- Witness for the amended C6 theorem: two one-record documents with
distinct ids merge to entrywise equal tables in either order. -/
theorem makeTree_merge_commutes_witness :
    (∀ ra ∈ [recA], ∀ rb ∈ [("GO:0000009",
        { name := some "", relations := [], desc := DescVal.str [],
          other := none : TermDict })],
        format_accessionS ra.1 [] ≠ format_accessionS rb.1 []) ∧
    termsGet (makeTree [] (([recA] ++ [("GO:0000009",
        { name := some "", relations := [], desc := DescVal.str [],
          other := none : TermDict })]).map some) []) "GO:0000009" =
    termsGet (makeTree [] (([("GO:0000009",
        { name := some "", relations := [], desc := DescVal.str [],
          other := none : TermDict })] ++ [recA]).map some) []) "GO:0000009" :=
  ⟨by decide,
   makeTree_merge_commutes_for_disjoint_ids [] [recA]
     [("GO:0000009",
       { name := some "", relations := [], desc := DescVal.str [], other := none })]
     (by decide) "GO:0000009"⟩

/-- The records a worker emits for a run of well-formed elements:
classification results that are truthy (`_classify` returned a
`(tid, d)` pair rather than `{}`). -/
def recordsOf (pre : List XMLElem) : List (String × TermDict) :=
  pre.filterMap (fun e =>
    match classify e with
    | .ok (some r) => some r
    | _ => none)

/-- A worker that classifies a run of elements without errors emits
exactly their records, then continues with the rest of the queue. -/
lemma workerRun_ok_elems (pre : List XMLElem) (rest : List (Option RawItem))
    (hok : ∀ x ∈ pre, (classify x).isOk = true) :
    workerRun (pre.map (fun x => some (RawItem.elem x)) ++ rest) =
      (recordsOf pre).map some ++ workerRun rest := by
  induction pre with
  | nil => rfl
  | cons e pre ih =>
    rw [List.map_cons, List.cons_append, workerRun]
    cases hcl : classify e with
    | error err =>
      have hiso := hok e (by simp)
      rw [hcl] at hiso
      exact Bool.noConfusion hiso
    | ok r =>
      cases r with
      | none =>
        rw [ih (fun x hx => hok x (by simp [hx]))]
        simp [recordsOf, List.filterMap_cons, hcl]
      | some rec0 =>
        rw [ih (fun x hx => hok x (by simp [hx]))]
        simp [recordsOf, List.filterMap_cons, hcl]

/-- C8: when the worker hits a parse error (poison) after a run of
well-formed elements, its producing loop terminates emitting exactly
the records of that run followed by the `(None, None)` poison, and
every `(tid, d)` result classified before the termination point is
still present in the merged term table. -/
theorem worker_poison_keeps_prior_results (ns : List String) (pre : List XMLElem)
    (post : List (Option RawItem)) (e : XMLElem) (tid : String) (d : TermDict)
    (hok : ∀ x ∈ pre, (classify x).isOk = true)
    (he : e ∈ pre) (hcl : classify e = .ok (some (tid, d))) :
    workerRun (pre.map (fun x => some (RawItem.elem x)) ++ some RawItem.malformed :: post) =
      (recordsOf pre).map some ++ [none] ∧
    (termsGet (makeTree ns (workerRun (pre.map (fun x => some (RawItem.elem x)) ++
        some RawItem.malformed :: post)) []) (format_accessionS tid ns)).isSome = true := by
  have hrun : workerRun (pre.map (fun x => some (RawItem.elem x)) ++
      some RawItem.malformed :: post) = (recordsOf pre).map some ++ [none] := by
    rw [workerRun_ok_elems pre _ hok]
    rfl
  refine ⟨hrun, ?_⟩
  rw [hrun, makeTree_map_some, makeTree_poison, termsGet_foldl_steps]
  have hmem : (tid, d) ∈ recordsOf pre := by
    rw [recordsOf]
    exact List.mem_filterMap.mpr ⟨e, he, by rw [hcl]⟩
  have hsome : ((recordsOf pre).reverse.find?
      (fun r => format_accessionS r.1 ns == format_accessionS tid ns)).isSome := by
    rw [List.find?_isSome]
    exact ⟨(tid, d), List.mem_reverse.mpr hmem, by simp⟩
  cases hf : (recordsOf pre).reverse.find?
      (fun r => format_accessionS r.1 ns == format_accessionS tid ns) with
  | none => rw [hf] at hsome; simp at hsome
  | some r => simp

/-- Witness for C8: a queue holding the one-frame element, then a
malformed payload, then further items; the element's record survives in
the table. -/
theorem worker_poison_keeps_prior_results_witness :
    (∀ x ∈ [goElem], (classify x).isOk = true) ∧
    goElem ∈ [goElem] ∧
    classify goElem = .ok (some ("GO:0000001",
      { name := some "test", relations := [("is_a", ["GO:0000002"])],
        desc := DescVal.str [], other := none })) ∧
    (termsGet (makeTree [] (workerRun ([goElem].map (fun x => some (RawItem.elem x)) ++
        some RawItem.malformed :: [some (RawItem.elem goElem)])) [])
      (format_accessionS "GO:0000001" [])).isSome = true := by
  refine ⟨by decide, by simp, by decide, ?_⟩
  exact (worker_poison_keeps_prior_results [] [goElem] [some (RawItem.elem goElem)]
    goElem "GO:0000001"
    { name := some "test", relations := [("is_a", ["GO:0000002"])],
      desc := DescVal.str [], other := none }
    (by decide) (by simp) (by decide)).2
